import Mathlib

/-!
Shallow embedding of the UDP video fragmentation/reassembly core of this
repository: the packetization loop of `send_video` (src/sender.py) and the
frame-reassembly state machine of the `VideoReceiver` class
(src/receiver.py).

Modelling conventions:
* byte strings are `List Nat` (payload bytes are never interpreted by the
  core, only moved around; header bytes are produced by `pack32`);
* Python `dict`s are association lists manipulated only through
  `insertA`/`eraseA`, which keep keys unique, so `List.length` agrees with
  Python's `len`;
* the `KeyError` that `_reassemble_frame` raises when a stored packet index
  lies outside `range(total_packets)` (caught by the generic handler in
  `check_socket`, which aborts the current drain loop) is modelled by an
  `Option` result for reassembly together with a `Bool` error flag in the
  result of the processing functions;
* the `while self.current_frame in self.frame_buffers` loop of
  `process_complete_frames` is modelled with a fuel parameter equal to the
  number of buffered frames: every loop iteration deletes the head entry
  from `frame_buffers` (inside `_cleanup_processed_frame`) and never adds
  one, so the number of buffered frames bounds the number of iterations,
  and when the fuel runs out the buffer map is empty and the loop guard
  fails anyway.
-/

abbrev Bytes := List Nat

/-- `HEADER_SIZE = 12` (receiver.py line 38, sender.py line 45). -/
def HEADER_SIZE : Nat := 12

/-- `FRAME_BUFFER_SIZE = 5` (receiver.py line 42), the retention window `W`. -/
def FRAME_BUFFER_SIZE : Nat := 5

/-- Association-list lookup, the model of Python `d[k]` / `d.get(k)`. -/
def lookupA {β : Type} : List (Nat × β) → Nat → Option β
  | [], _ => none
  | (k, v) :: rest, key => if k = key then some v else lookupA rest key

/-- Removal of a key, the model of Python `del d[k]`. -/
def eraseA {β : Type} (m : List (Nat × β)) (k : Nat) : List (Nat × β) :=
  m.filter (fun pr => decide (pr.1 ≠ k))

/-- Overwriting insertion, the model of Python `d[k] = v`. -/
def insertA {β : Type} (m : List (Nat × β)) (k : Nat) (v : β) : List (Nat × β) :=
  (k, v) :: eraseA m k

/-- The keys of an association list. -/
def keysA {β : Type} (m : List (Nat × β)) : List Nat := m.map Prod.fst

/-- Big-endian encoding of one unsigned 32-bit field, `struct.pack('>I', n)`. -/
def pack32 (n : Nat) : Bytes :=
  [n / 16777216 % 256, n / 65536 % 256, n / 256 % 256, n % 256]

/-- Big-endian decoding of an unsigned 32-bit field, `struct.unpack('>I', -)`. -/
def unpack32 (l : Bytes) : Nat := l.foldl (fun a b => a * 256 + b) 0

/-- `frame_number` field of `struct.unpack('>III', data[:HEADER_SIZE])`. -/
def frameOf (data : Bytes) : Nat := unpack32 (data.take 4)

/-- `packet_num` field of `struct.unpack('>III', data[:HEADER_SIZE])`. -/
def idxOf (data : Bytes) : Nat := unpack32 ((data.drop 4).take 4)

/-- `total_packets` field of `struct.unpack('>III', data[:HEADER_SIZE])`. -/
def totalOf (data : Bytes) : Nat := unpack32 ((data.drop 8).take 4)

/-- `header + chunk` assembled in `send_video` (sender.py lines 83-84). -/
def mkPacket (frame_number packet_num total_packets : Nat) (chunk : Bytes) : Bytes :=
  pack32 frame_number ++ pack32 packet_num ++ pack32 total_packets ++ chunk

/-- The slice `data[start:end]` with `start = packet_num * chunk_size` and
`end = min(start + chunk_size, len(data))` (sender.py lines 78-80). -/
def payload_chunk (payload : Bytes) (chunk_size packet_num : Nat) : Bytes :=
  (payload.drop (packet_num * chunk_size)).take chunk_size

/-- The packetization loop of `send_video` (sender.py lines 73-84) for one
frame, parameterized over the maximum packet size as in the spec's
`split` contract: `total_packets` is
`(len(data) + max - header - 1) // (max - header)` and packet `packet_num`
carries the header followed by the corresponding contiguous chunk. -/
def send_video_packets (payload : Bytes) (frame_number max_packet_size : Nat) : List Bytes :=
  (List.range ((payload.length + max_packet_size - HEADER_SIZE - 1) /
      (max_packet_size - HEADER_SIZE))).map (fun packet_num =>
    mkPacket frame_number packet_num
      ((payload.length + max_packet_size - HEADER_SIZE - 1) /
        (max_packet_size - HEADER_SIZE))
      (payload_chunk payload (max_packet_size - HEADER_SIZE) packet_num))

/-- map from packet index to stored chunk: one value of `self.frame_buffers`. -/
abbrev PacketMap := List (Nat × Bytes)

/-- `self.frame_buffers : Dict[int, Dict[int, bytes]]`. -/
abbrev FrameMap := List (Nat × PacketMap)

/-- The mutable reassembly state of `VideoReceiver`
(`_setup_frame_buffers`, receiver.py lines 107-113). -/
structure RxState where
  frame_buffers : FrameMap
  frame_total_packets : List (Nat × Nat)
  current_frame : Nat
deriving DecidableEq

/-- A fresh receiver whose cursor (`self.current_frame`) is `f`;
`_setup_frame_buffers` uses `f = 0`. -/
def initState (f : Nat) : RxState := ⟨[], [], f⟩

/-- `_is_frame_complete` (receiver.py lines 199-208): the code compares only
`len(frame_packets)` with `total_packets`. -/
def is_frame_complete (frame_packets : PacketMap) (total_packets : Nat) : Bool :=
  frame_packets.length == total_packets

/-- The loop of `_reassemble_frame` (receiver.py lines 210-219) from index
`i`, for `n` remaining indices: `frame_data += frame_packets[i]`, where a
missing index raises `KeyError`, modelled as `none`. -/
def concatPackets (frame_packets : PacketMap) : Nat → Nat → Option Bytes
  | _, 0 => some []
  | i, Nat.succ n =>
    match lookupA frame_packets i, concatPackets frame_packets (i + 1) n with
    | some chunk, some rest => some (chunk ++ rest)
    | _, _ => none

/-- `_reassemble_frame`: concatenation of `frame_packets[0..total_packets-1]`;
`none` models the `KeyError` on a missing index. -/
def reassemble_frame (frame_packets : PacketMap) (total_packets : Nat) : Option Bytes :=
  concatPackets frame_packets 0 total_packets

/-- `_cleanup_processed_frame` (receiver.py lines 221-233): delete the just
processed head frame from both maps (the caller guarantees both entries are
present), advance the cursor, then evict every buffered frame number below
`current_frame - FRAME_BUFFER_SIZE`, removing its `frame_total_packets`
entry as well when present.  The eviction scan iterates over
`frame_buffers`, so `frame_total_packets` entries are only removed for
frame numbers still present in `frame_buffers`. -/
def cleanup_processed_frame (s : RxState) : RxState :=
  let bufs := eraseA s.frame_buffers s.current_frame
  let tots := eraseA s.frame_total_packets s.current_frame
  let cf := s.current_frame + 1
  { frame_buffers := bufs.filter (fun pr => !decide (pr.1 < cf - FRAME_BUFFER_SIZE)),
    frame_total_packets := tots.filter (fun pr =>
      !(decide (pr.1 < cf - FRAME_BUFFER_SIZE) && (lookupA bufs pr.1).isSome)),
    current_frame := cf }

/-- One iteration step of the `while` loop of `process_complete_frames`
(receiver.py lines 182-197), with explicit fuel (see the header comment):
if the head frame is buffered, has a recorded total, and passes
`_is_frame_complete`, it is reassembled, emitted (paired with its frame
number, which equals the cursor at emission time), cleaned up, and the loop
repeats; a failed reassembly (`KeyError`) aborts with the error flag set. -/
def pcfAux : Nat → RxState → RxState × List (Nat × Bytes) × Bool
  | 0, s => (s, [], false)
  | Nat.succ fuel, s =>
    match lookupA s.frame_buffers s.current_frame with
    | none => (s, [], false)
    | some frame_packets =>
      match lookupA s.frame_total_packets s.current_frame with
      | none => (s, [], false)
      | some total_packets =>
        if is_frame_complete frame_packets total_packets then
          match reassemble_frame frame_packets total_packets with
          | none => (s, [], true)
          | some frame_data =>
            let r := pcfAux fuel (cleanup_processed_frame s)
            (r.1, (s.current_frame, frame_data) :: r.2.1, r.2.2)
        else (s, [], false)

/-- `process_complete_frames` (receiver.py lines 182-197). -/
def process_complete_frames (s : RxState) : RxState × List (Nat × Bytes) × Bool :=
  pcfAux s.frame_buffers.length s

/-- `_process_packet` (receiver.py lines 151-180): decode the header, record
`total_packets` for the frame, store the chunk under its packet index in
the frame's buffer (creating it if absent, as the `defaultdict` does), then
run `process_complete_frames`.  `struct.error` cannot occur since the
caller guarantees at least `HEADER_SIZE` bytes. -/
def process_packet (s : RxState) (data : Bytes) : RxState × List (Nat × Bytes) × Bool :=
  let fb := (lookupA s.frame_buffers (frameOf data)).getD []
  process_complete_frames
    { frame_buffers := insertA s.frame_buffers (frameOf data)
        (insertA fb (idxOf data) (data.drop HEADER_SIZE)),
      frame_total_packets := insertA s.frame_total_packets (frameOf data) (totalOf data),
      current_frame := s.current_frame }

/-- The per-datagram body of `check_socket` (receiver.py lines 122-149):
a datagram shorter than `HEADER_SIZE` is dropped with a warning and no
state change, otherwise it is handed to `_process_packet`. -/
def handle_datagram (s : RxState) (data : Bytes) : RxState × List (Nat × Bytes) × Bool :=
  if data.length < HEADER_SIZE then (s, [], false)
  else process_packet s data

/-- Feeding a sequence of datagrams to the receiver, one `check_socket`
delivery at a time, collecting every `(frame_number, frame_data)` pair
emitted to `process_frame` along the way. -/
def run_datagrams (s : RxState) : List Bytes → RxState × List (Nat × Bytes)
  | [] => (s, [])
  | d :: ds =>
    let r := handle_datagram s d
    let rest := run_datagrams r.1 ds
    (rest.1, r.2.1 ++ rest.2)

/-- The spec's eviction bound at window `W = FRAME_BUFFER_SIZE`: no buffered
state (neither a packet map nor a `total_packets` record) exists for any
frame number below `current_frame - FRAME_BUFFER_SIZE`. -/
def window_ok (s : RxState) : Prop :=
  ∀ g : Nat,
    ((lookupA s.frame_buffers g).isSome ∨ (lookupA s.frame_total_packets g).isSome) →
    ¬ g < s.current_frame - FRAME_BUFFER_SIZE

/-- State invariant of the receiver: every frame number with a recorded
`frame_total_packets` entry also has a `frame_buffers` entry (both are
always written together in `_process_packet` and deleted together in
`_cleanup_processed_frame`). -/
def keys_covered (s : RxState) : Prop :=
  ∀ g : Nat, (lookupA s.frame_total_packets g).isSome → (lookupA s.frame_buffers g).isSome

/-- A packet map for a frame with `T` packets whose chunks are given by `g`:
keys are distinct indices below `T` and each stored chunk is the sender's
chunk for its index. -/
def goodPM (T : Nat) (g : Nat → Bytes) (bm : PacketMap) : Prop :=
  (keysA bm).Nodup ∧ ∀ k ∈ keysA bm, k < T ∧ lookupA bm k = some (g k)

/-- Receiver state while frame `f` (the head frame, of `T` packets with
chunks `g`) is still incomplete and only packets of frame `f` have been
ingested. -/
def Phase1 (f T : Nat) (g : Nat → Bytes) (s : RxState) : Prop :=
  s.current_frame = f ∧
  (s.frame_total_packets = [] ∨ s.frame_total_packets = [(f, T)]) ∧
  (s.frame_buffers = [] ∨
    ∃ bm, s.frame_buffers = [(f, bm)] ∧ goodPM T g bm ∧ bm.length < T)

/-- Receiver state after frame `f` has been emitted: the cursor is `f + 1`
and frame `f + 1` is not buffered (all ingested datagrams belong to
frame `f`). -/
def Phase2 (f : Nat) (s : RxState) : Prop :=
  s.current_frame = f + 1 ∧ lookupA s.frame_buffers (f + 1) = none

/-- Receiver state in which the head frame `f0` (of `T` packets) can never
complete because index `i0 < T` has never been stored: every buffered index
of `f0` is a distinct index below `T` other than `i0`, and any recorded
total for `f0` is `T`. -/
def head_blocked (f0 T i0 : Nat) (s : RxState) : Prop :=
  s.current_frame = f0 ∧
  (∀ bm, lookupA s.frame_buffers f0 = some bm →
    (keysA bm).Nodup ∧ ∀ k ∈ keysA bm, k < T ∧ k ≠ i0) ∧
  (∀ t, lookupA s.frame_total_packets f0 = some t → t = T)

example : (run_datagrams (initState 0) (send_video_packets [1, 2, 3] 0 13)).2
    = [(0, [1, 2, 3])] := by decide

example : send_video_packets ([] : Bytes) 0 13 = [] := by decide

/-! ## Association-list lemmas -/

theorem lookupA_filter_key {β : Type} (Q : Nat → Bool) (m : List (Nat × β)) (k : Nat) :
    lookupA (m.filter (fun pr => Q pr.1)) k = if Q k then lookupA m k else none := by
  induction m with
  | nil => cases hQ : Q k <;> simp [lookupA, hQ]
  | cons hd tl ih =>
    obtain ⟨a, b⟩ := hd
    by_cases hak : a = k
    · subst hak
      cases hQ : Q a
      · simpa [List.filter, hQ] using ih
      · simp [List.filter, hQ, lookupA]
    · cases hQ : Q a
      · simpa [List.filter, hQ, lookupA, hak] using ih
      · simpa [List.filter, hQ, lookupA, hak] using ih

theorem lookupA_eraseA {β : Type} (m : List (Nat × β)) (k key : Nat) :
    lookupA (eraseA m k) key = if key = k then none else lookupA m key := by
  have h := lookupA_filter_key (fun x => decide (x ≠ k)) m key
  by_cases hk : key = k <;> simp_all [eraseA]

theorem lookupA_insertA {β : Type} (m : List (Nat × β)) (k : Nat) (v : β) (key : Nat) :
    lookupA (insertA m k v) key = if k = key then some v else lookupA m key := by
  by_cases hk : k = key
  · subst hk; simp [insertA, lookupA]
  · simp [insertA, lookupA, hk, lookupA_eraseA, Ne.symm hk]

theorem lookupA_mem {β : Type} {m : List (Nat × β)} {k : Nat} {v : β}
    (h : lookupA m k = some v) : (k, v) ∈ m := by
  induction m with
  | nil => simp [lookupA] at h
  | cons hd tl ih =>
    obtain ⟨a, b⟩ := hd
    by_cases hak : a = k
    · subst hak
      simp [lookupA] at h
      simp [h]
    · simp [lookupA, hak] at h
      exact List.mem_cons_of_mem _ (ih h)

theorem lookupA_isSome_iff_mem_keysA {β : Type} (m : List (Nat × β)) (k : Nat) :
    (lookupA m k).isSome ↔ k ∈ keysA m := by
  induction m with
  | nil => simp [lookupA, keysA]
  | cons hd tl ih =>
    obtain ⟨a, b⟩ := hd
    by_cases hak : a = k
    · subst hak; simp [lookupA, keysA]
    · have hka : k ≠ a := fun h => hak h.symm
      simp [keysA] at ih
      simp [lookupA, hak, keysA, hka, ih]

theorem lookupA_isSome_of_mem {β : Type} {m : List (Nat × β)} {k : Nat} {v : β}
    (h : (k, v) ∈ m) : (lookupA m k).isSome := by
  rw [lookupA_isSome_iff_mem_keysA]
  exact List.mem_map_of_mem Prod.fst h

theorem keysA_eraseA {β : Type} (m : List (Nat × β)) (k : Nat) :
    keysA (eraseA m k) = (keysA m).filter (fun x => decide (x ≠ k)) := by
  induction m with
  | nil => rfl
  | cons hd tl ih =>
    obtain ⟨a, b⟩ := hd
    by_cases hak : a = k <;> simp [eraseA, keysA, List.filter, hak] at ih ⊢ <;>
      simpa [eraseA, keysA] using ih

theorem keysA_insertA {β : Type} (m : List (Nat × β)) (k : Nat) (v : β) :
    keysA (insertA m k v) = k :: keysA (eraseA m k) := rfl

theorem mem_keysA_eraseA {β : Type} {m : List (Nat × β)} {k x : Nat}
    (h : x ∈ keysA (eraseA m k)) : x ∈ keysA m ∧ x ≠ k := by
  rw [keysA_eraseA] at h
  simpa using List.mem_filter.mp h

theorem nodup_keysA_insertA {β : Type} {m : List (Nat × β)} (k : Nat) (v : β)
    (h : (keysA m).Nodup) : (keysA (insertA m k v)).Nodup := by
  rw [keysA_insertA, keysA_eraseA]
  refine List.Nodup.cons ?_ (h.filter _)
  intro hk
  simpa using (List.mem_filter.mp hk).2

theorem length_keysA {β : Type} (m : List (Nat × β)) :
    (keysA m).length = m.length := List.length_map _ _

/-! ## Wire-format lemmas -/

theorem pack32_length (n : Nat) : (pack32 n).length = 4 := rfl

theorem unpack32_pack32 {n : Nat} (h : n < 4294967296) : unpack32 (pack32 n) = n := by
  simp [pack32, unpack32, List.foldl]
  omega

theorem frameOf_mkPacket (fn pn tp : Nat) (c : Bytes) (h : fn < 4294967296) :
    frameOf (mkPacket fn pn tp c) = fn := by
  have : (mkPacket fn pn tp c).take 4 = pack32 fn := by
    simp [mkPacket, pack32]
  rw [frameOf, this, unpack32_pack32 h]

theorem idxOf_mkPacket (fn pn tp : Nat) (c : Bytes) (h : pn < 4294967296) :
    idxOf (mkPacket fn pn tp c) = pn := by
  have : ((mkPacket fn pn tp c).drop 4).take 4 = pack32 pn := by
    simp [mkPacket, pack32]
  rw [idxOf, this, unpack32_pack32 h]

theorem totalOf_mkPacket (fn pn tp : Nat) (c : Bytes) (h : tp < 4294967296) :
    totalOf (mkPacket fn pn tp c) = tp := by
  have : ((mkPacket fn pn tp c).drop 8).take 4 = pack32 tp := by
    simp [mkPacket, pack32]
  rw [totalOf, this, unpack32_pack32 h]

theorem mkPacket_drop_header (fn pn tp : Nat) (c : Bytes) :
    (mkPacket fn pn tp c).drop HEADER_SIZE = c := by
  simp [mkPacket, pack32, HEADER_SIZE]

theorem mkPacket_length_ge (fn pn tp : Nat) (c : Bytes) :
    ¬ (mkPacket fn pn tp c).length < HEADER_SIZE := by
  simp [mkPacket, pack32, HEADER_SIZE]

/-! ## Chunking lemmas -/

theorem join_chunks (c : Nat) :
    ∀ (T : Nat) (p : Bytes), p.length ≤ T * c →
      ((List.range T).map (payload_chunk p c)).flatten = p := by
  intro T
  induction T with
  | zero =>
    intro p hp
    simp at hp
    simp [hp]
  | succ T ih =>
    intro p hp
    rw [List.range_succ_eq_map]
    simp only [List.map_cons, List.map_map, List.flatten_cons]
    have h0 : payload_chunk p c 0 = p.take c := by
      simp [payload_chunk]
    have hshift : ∀ j : Nat, (payload_chunk p c ∘ Nat.succ) j = payload_chunk (p.drop c) c j := by
      intro j
      simp only [Function.comp, payload_chunk, List.drop_drop, Nat.succ_mul]
      congr 2
      omega
    rw [h0, List.map_congr_left (fun j _ => hshift j)]
    have hlen : (p.drop c).length ≤ T * c := by
      simp only [List.length_drop]
      have : (T + 1) * c = T * c + c := by ring
      omega
    rw [ih (p.drop c) hlen, List.take_append_drop]

theorem concatPackets_spec (fp : PacketMap) (g : Nat → Bytes) :
    ∀ (n i : Nat), (∀ j, j < n → lookupA fp (i + j) = some (g (i + j))) →
      concatPackets fp i n = some (((List.range n).map (fun j => g (i + j))).flatten) := by
  intro n
  induction n with
  | zero => intro i _; simp [concatPackets]
  | succ n ih =>
    intro i h
    have h0 : lookupA fp i = some (g i) := by
      have := h 0 (Nat.succ_pos n)
      simpa using this
    have hrec : concatPackets fp (i + 1) n
        = some (((List.range n).map (fun j => g (i + 1 + j))).flatten) := by
      refine ih (i + 1) ?_
      intro j hj
      have := h (j + 1) (by omega)
      have harg : i + (j + 1) = i + 1 + j := by omega
      rwa [harg] at this
    have hmap : ((List.range n).map ((fun j => g (i + j)) ∘ Nat.succ))
        = (List.range n).map (fun j => g (i + 1 + j)) := by
      refine List.map_congr_left ?_
      intro j _
      simp only [Function.comp]
      congr 1
      omega
    simp only [concatPackets, h0, hrec, List.range_succ_eq_map, List.map_cons,
      List.map_map, List.flatten_cons, hmap, Nat.add_zero]

/-! ## Branch lemmas for the `process_complete_frames` loop -/

theorem pcfAux_head_missing (fuel : Nat) (s : RxState)
    (hb : lookupA s.frame_buffers s.current_frame = none) :
    pcfAux fuel s = (s, [], false) := by
  cases fuel with
  | zero => rfl
  | succ n => simp [pcfAux, hb]

theorem pcfAux_no_total (fuel : Nat) (s : RxState) (fp : PacketMap)
    (hb : lookupA s.frame_buffers s.current_frame = some fp)
    (ht : lookupA s.frame_total_packets s.current_frame = none) :
    pcfAux fuel s = (s, [], false) := by
  cases fuel with
  | zero => rfl
  | succ n => simp [pcfAux, hb, ht]

theorem pcfAux_head_incomplete (fuel : Nat) (s : RxState) (fp : PacketMap) (total : Nat)
    (hb : lookupA s.frame_buffers s.current_frame = some fp)
    (ht : lookupA s.frame_total_packets s.current_frame = some total)
    (hinc : fp.length ≠ total) :
    pcfAux fuel s = (s, [], false) := by
  cases fuel with
  | zero => rfl
  | succ n => simp [pcfAux, hb, ht, is_frame_complete, hinc]

theorem pcfAux_head_err (fuel : Nat) (s : RxState) (fp : PacketMap) (total : Nat)
    (hb : lookupA s.frame_buffers s.current_frame = some fp)
    (ht : lookupA s.frame_total_packets s.current_frame = some total)
    (hcomp : fp.length = total)
    (hre : reassemble_frame fp total = none) :
    pcfAux (fuel + 1) s = (s, [], true) := by
  simp [pcfAux, hb, ht, is_frame_complete, hcomp, hre]

theorem pcfAux_head_emit (fuel : Nat) (s : RxState) (fp : PacketMap) (total : Nat)
    (frame_data : Bytes)
    (hb : lookupA s.frame_buffers s.current_frame = some fp)
    (ht : lookupA s.frame_total_packets s.current_frame = some total)
    (hcomp : fp.length = total)
    (hre : reassemble_frame fp total = some frame_data) :
    pcfAux (fuel + 1) s =
      ((pcfAux fuel (cleanup_processed_frame s)).1,
       (s.current_frame, frame_data) :: (pcfAux fuel (cleanup_processed_frame s)).2.1,
       (pcfAux fuel (cleanup_processed_frame s)).2.2) := by
  simp [pcfAux, hb, ht, is_frame_complete, hcomp, hre]

theorem handle_datagram_store (s : RxState) (data : Bytes) (hlen : ¬ data.length < HEADER_SIZE) :
    handle_datagram s data = process_complete_frames
      { frame_buffers := insertA s.frame_buffers (frameOf data)
          (insertA ((lookupA s.frame_buffers (frameOf data)).getD [])
            (idxOf data) (data.drop HEADER_SIZE)),
        frame_total_packets := insertA s.frame_total_packets (frameOf data) (totalOf data),
        current_frame := s.current_frame } := by
  rw [handle_datagram, if_neg hlen]
  rfl

/-! ## C8, C2, C7, C10 -/

theorem handle_datagram_short (s : RxState) (data : Bytes)
    (h : data.length < HEADER_SIZE) :
    handle_datagram s data = (s, [], false) := by
  rw [handle_datagram, if_pos h]

/-- C8: a datagram shorter than 12 bytes (`HEADER_SIZE`) leaves the whole
reassembly state (`frame_buffers`, `frame_total_packets`, `current_frame`)
unchanged, emits no frame and raises no error: `check_socket` drops it
before `_process_packet` is reached. -/
theorem C8_short_datagram (s : RxState) (data : Bytes) (h : data.length < 12) :
    handle_datagram s data = (s, [], false) :=
  handle_datagram_short s data h

theorem C8_short_datagram_witness :
    ([1, 2, 3] : Bytes).length < 12 ∧
    handle_datagram (initState 0) [1, 2, 3] = (initState 0, [], false) :=
  ⟨by decide, C8_short_datagram (initState 0) [1, 2, 3] (by decide)⟩

/-- C2 (amended): `_is_frame_complete` judges a frame complete exactly when
the number of stored entries equals `total_packets` (a pure count check);
this coincides with the spec's set equality
`keys = {0, …, total_packets-1}` only under the extra assumptions that the
stored indices are distinct and all below `total_packets`. -/
theorem C2_completeness_count (frame_packets : PacketMap) (total_packets : Nat)
    (hnd : (keysA frame_packets).Nodup)
    (hbd : ∀ k ∈ keysA frame_packets, k < total_packets) :
    (is_frame_complete frame_packets total_packets = true ↔
      frame_packets.length = total_packets) ∧
    (is_frame_complete frame_packets total_packets = true ↔
      (keysA frame_packets).toFinset = Finset.range total_packets) := by
  have hcount : is_frame_complete frame_packets total_packets = true ↔
      frame_packets.length = total_packets := by
    simp [is_frame_complete]
  refine ⟨hcount, ?_⟩
  have hlen : frame_packets.length = (keysA frame_packets).toFinset.card := by
    rw [List.toFinset_card_of_nodup hnd, length_keysA]
  have hsub : (keysA frame_packets).toFinset ⊆ Finset.range total_packets := by
    intro x hx
    simp only [List.mem_toFinset] at hx
    simpa using hbd x hx
  rw [hcount]
  constructor
  · intro h
    refine Finset.eq_of_subset_of_card_le hsub ?_
    rw [Finset.card_range, ← hlen, h]
  · intro h
    rw [hlen, h, Finset.card_range]

/-- C2 counterexample: a buffer holding exactly `total_packets = 1` entry,
but at index 1 instead of 0, is judged complete by the code even though its
key set is not `{0}` (index 0 is absent), refuting the claim's
"set equality" reading of the completeness test. -/
theorem C2_completeness_cex :
    is_frame_complete [(1, ([] : Bytes))] 1 = true ∧
    ¬ (keysA [(1, ([] : Bytes))]).toFinset = Finset.range 1 ∧
    lookupA [(1, ([] : Bytes))] 0 = none := by decide

theorem C2_completeness_count_witness :
    (keysA [(0, ([] : Bytes))]).Nodup ∧
    (is_frame_complete [(0, ([] : Bytes))] 1 = true ↔
      (keysA [(0, ([] : Bytes))]).toFinset = Finset.range 1) :=
  ⟨by decide, (C2_completeness_count [(0, ([] : Bytes))] 1 (by decide) (by decide)).2⟩

/-- C7 (amended): the code does not reject `total_packets = 0`; the packet is
stored and `total_packets = 0` recorded (buffer state IS mutated), but no
frame is emitted for it — the head frame's buffer then holds at least one
entry while its recorded total is 0, so `_is_frame_complete` can never
succeed. -/
theorem C7_total_zero (s : RxState) (data : Bytes)
    (hlen : ¬ data.length < HEADER_SIZE)
    (htot : totalOf data = 0)
    (hfr : frameOf data = s.current_frame) :
    (handle_datagram s data).2.1 = [] ∧
    (lookupA (handle_datagram s data).1.frame_buffers (frameOf data)).isSome ∧
    lookupA (handle_datagram s data).1.frame_total_packets (frameOf data) = some 0 := by
  rw [handle_datagram_store s data hlen]
  set fb := (lookupA s.frame_buffers (frameOf data)).getD [] with hfbdef
  set s2 : RxState :=
    { frame_buffers := insertA s.frame_buffers (frameOf data)
        (insertA fb (idxOf data) (data.drop HEADER_SIZE)),
      frame_total_packets := insertA s.frame_total_packets (frameOf data) (totalOf data),
      current_frame := s.current_frame } with hs2
  have hb : lookupA s2.frame_buffers s2.current_frame
      = some (insertA fb (idxOf data) (data.drop HEADER_SIZE)) := by
    rw [hs2, hfr, lookupA_insertA, if_pos rfl]
  have ht : lookupA s2.frame_total_packets s2.current_frame = some 0 := by
    rw [hs2, hfr, htot, lookupA_insertA]
    simp [hfr]
  have hinc : (insertA fb (idxOf data) (data.drop HEADER_SIZE)).length ≠ 0 := by
    simp [insertA]
  have hrun : process_complete_frames s2 = (s2, [], false) := by
    rw [process_complete_frames]
    exact pcfAux_head_incomplete _ s2 _ 0 hb ht hinc
  rw [hrun]
  refine ⟨rfl, ?_, ?_⟩
  · rw [← hfr] at hb
    rw [hb]
    rfl
  · rw [← hfr] at ht
    exact ht

theorem C7_total_zero_witness :
    totalOf (mkPacket 0 3 0 [5]) = 0 ∧
    (handle_datagram (initState 0) (mkPacket 0 3 0 [5])).2.1 = [] ∧
    (lookupA (handle_datagram (initState 0) (mkPacket 0 3 0 [5])).1.frame_buffers
      (frameOf (mkPacket 0 3 0 [5]))).isSome ∧
    lookupA (handle_datagram (initState 0) (mkPacket 0 3 0 [5])).1.frame_total_packets
      (frameOf (mkPacket 0 3 0 [5])) = some 0 := by
  refine ⟨by decide, ?_⟩
  exact C7_total_zero (initState 0) (mkPacket 0 3 0 [5]) (by decide) (by decide) (by decide)

/-- C7 counterexample: the claim says such a datagram "mutates no buffer
state (no frame buffer entry and no total_packets record is created)";
in fact ingesting a well-formed 12-byte datagram with `total_packets = 0`
creates both a `frame_buffers` entry and a `frame_total_packets` record. -/
theorem C7_total_zero_cex :
    lookupA (handle_datagram (initState 0) (mkPacket 0 0 0 [])).1.frame_buffers 0
      = some [(0, [])] ∧
    lookupA (handle_datagram (initState 0) (mkPacket 0 0 0 [])).1.frame_total_packets 0
      = some 0 := by decide

/-- C10: a single datagram for the head frame carrying `packet_index = 1`
and `total_packets = 1` is stored without any range check; the count-based
completeness check then succeeds while index 0 is absent, so
`_reassemble_frame` fails with a missing-key error (`KeyError`), no frame
is emitted, the drain loop aborts with the error flag set, and the frame
stays buffered with the cursor unchanged. -/
theorem C10_out_of_range_index :
    (handle_datagram (initState 0) (mkPacket 0 1 1 [7])).2.2 = true ∧
    (handle_datagram (initState 0) (mkPacket 0 1 1 [7])).2.1 = [] ∧
    (handle_datagram (initState 0) (mkPacket 0 1 1 [7])).1.current_frame = 0 ∧
    lookupA (handle_datagram (initState 0) (mkPacket 0 1 1 [7])).1.frame_buffers 0
      = some [(1, [7])] ∧
    lookupA (handle_datagram (initState 0) (mkPacket 0 1 1 [7])).1.frame_total_packets 0
      = some 1 ∧
    is_frame_complete [(1, [7])] 1 = true ∧
    lookupA [(1, [7])] 0 = none ∧
    reassemble_frame [(1, [7])] 1 = none := by decide

/-! ## C3: in-order, gap-free, duplicate-free emission -/

theorem cleanup_frame_buffers (s : RxState) :
    (cleanup_processed_frame s).frame_buffers
      = (eraseA s.frame_buffers s.current_frame).filter
          (fun pr => !decide (pr.1 < s.current_frame + 1 - FRAME_BUFFER_SIZE)) := rfl

theorem cleanup_frame_total (s : RxState) :
    (cleanup_processed_frame s).frame_total_packets
      = (eraseA s.frame_total_packets s.current_frame).filter
          (fun pr => !(decide (pr.1 < s.current_frame + 1 - FRAME_BUFFER_SIZE) &&
            (lookupA (eraseA s.frame_buffers s.current_frame) pr.1).isSome)) := rfl

theorem cleanup_current_frame (s : RxState) :
    (cleanup_processed_frame s).current_frame = s.current_frame + 1 := rfl

theorem pcfAux_consecutive : ∀ (fuel : Nat) (s : RxState),
    ((pcfAux fuel s).2.1).map Prod.fst
      = List.range' s.current_frame (pcfAux fuel s).2.1.length ∧
    (pcfAux fuel s).1.current_frame = s.current_frame + (pcfAux fuel s).2.1.length := by
  intro fuel
  induction fuel with
  | zero => intro s; simp [pcfAux]
  | succ n ih =>
    intro s
    cases hb : lookupA s.frame_buffers s.current_frame with
    | none => rw [pcfAux_head_missing _ _ hb]; simp
    | some fp =>
      cases ht : lookupA s.frame_total_packets s.current_frame with
      | none => rw [pcfAux_no_total _ _ _ hb ht]; simp
      | some total =>
        by_cases hcomp : fp.length = total
        · cases hre : reassemble_frame fp total with
          | none => rw [pcfAux_head_err n s fp total hb ht hcomp hre]; simp
          | some fd =>
            rw [pcfAux_head_emit n s fp total fd hb ht hcomp hre]
            obtain ⟨ih1, ih2⟩ := ih (cleanup_processed_frame s)
            rw [cleanup_current_frame] at ih1 ih2
            simp only [List.map_cons, List.length_cons]
            refine ⟨?_, ?_⟩
            · rw [ih1, List.range'_succ]
            · rw [ih2]; omega
        · rw [pcfAux_head_incomplete _ s fp total hb ht hcomp]; simp

theorem handle_datagram_consecutive (s : RxState) (data : Bytes) :
    ((handle_datagram s data).2.1).map Prod.fst
      = List.range' s.current_frame (handle_datagram s data).2.1.length ∧
    (handle_datagram s data).1.current_frame
      = s.current_frame + (handle_datagram s data).2.1.length := by
  by_cases h : data.length < HEADER_SIZE
  · rw [handle_datagram, if_pos h]; simp
  · rw [handle_datagram_store s data h, process_complete_frames]
    exact pcfAux_consecutive _ _

theorem run_datagrams_consecutive : ∀ (ds : List Bytes) (s : RxState),
    ((run_datagrams s ds).2).map Prod.fst
      = List.range' s.current_frame (run_datagrams s ds).2.length ∧
    (run_datagrams s ds).1.current_frame
      = s.current_frame + (run_datagrams s ds).2.length := by
  intro ds
  induction ds with
  | nil => intro s; simp [run_datagrams]
  | cons d ds ih =>
    intro s
    obtain ⟨h1, h2⟩ := handle_datagram_consecutive s d
    obtain ⟨ih1, ih2⟩ := ih (handle_datagram s d).1
    rw [h2] at ih1 ih2
    simp only [run_datagrams]
    refine ⟨?_, ?_⟩
    · rw [List.map_append, h1, ih1, List.length_append]
      have := List.range'_append s.current_frame (handle_datagram s d).2.1.length
        (run_datagrams (handle_datagram s d).1 ds).2.length 1
      rw [Nat.one_mul] at this
      rw [this, Nat.add_comm (run_datagrams (handle_datagram s d).1 ds).2.length]
    · rw [ih2, List.length_append]; omega

/-- C3: over any sequence of ingested datagrams, the frame numbers of the
payloads handed to `process_frame` are exactly the consecutive run
`current_frame, current_frame + 1, …` starting at the receiver's cursor
(strictly increasing, no gaps, no duplicates), and the cursor advances by
exactly one per emission: a frame is emitted only when its number equals
the cursor, and after each emission the new head frame is re-checked in
the same loop. -/
theorem C3_in_order_emission (s : RxState) (ds : List Bytes) :
    ((run_datagrams s ds).2).map Prod.fst
      = List.range' s.current_frame (run_datagrams s ds).2.length ∧
    (run_datagrams s ds).1.current_frame
      = s.current_frame + (run_datagrams s ds).2.length :=
  run_datagrams_consecutive ds s

/-! ## C5: eviction window -/

theorem lookupA_cleanup_buffers (s : RxState) (g : Nat) :
    lookupA (cleanup_processed_frame s).frame_buffers g
      = if (!decide (g < s.current_frame + 1 - FRAME_BUFFER_SIZE)) then
          lookupA (eraseA s.frame_buffers s.current_frame) g
        else none := by
  rw [cleanup_frame_buffers]
  exact lookupA_filter_key (fun x => !decide (x < s.current_frame + 1 - FRAME_BUFFER_SIZE)) _ g

theorem lookupA_cleanup_total (s : RxState) (g : Nat) :
    lookupA (cleanup_processed_frame s).frame_total_packets g
      = if (!(decide (g < s.current_frame + 1 - FRAME_BUFFER_SIZE) &&
            (lookupA (eraseA s.frame_buffers s.current_frame) g).isSome)) then
          lookupA (eraseA s.frame_total_packets s.current_frame) g
        else none := by
  rw [cleanup_frame_total]
  exact lookupA_filter_key
    (fun x => !(decide (x < s.current_frame + 1 - FRAME_BUFFER_SIZE) &&
      (lookupA (eraseA s.frame_buffers s.current_frame) x).isSome)) _ g

theorem cleanup_window (s : RxState) (h : keys_covered s) :
    window_ok (cleanup_processed_frame s) ∧ keys_covered (cleanup_processed_frame s) ∧
    lookupA (cleanup_processed_frame s).frame_buffers s.current_frame = none ∧
    lookupA (cleanup_processed_frame s).frame_total_packets s.current_frame = none := by
  have hbuf : ∀ g, (lookupA (cleanup_processed_frame s).frame_buffers g).isSome →
      ¬ g < s.current_frame + 1 - FRAME_BUFFER_SIZE ∧
      (lookupA (eraseA s.frame_buffers s.current_frame) g).isSome := by
    intro g hg
    rw [lookupA_cleanup_buffers] at hg
    by_cases hc : g < s.current_frame + 1 - FRAME_BUFFER_SIZE
    · simp [hc] at hg
    · exact ⟨hc, by simpa [hc] using hg⟩
  have htot : ∀ g, (lookupA (cleanup_processed_frame s).frame_total_packets g).isSome →
      ¬ g < s.current_frame + 1 - FRAME_BUFFER_SIZE ∧
      (lookupA (eraseA s.frame_buffers s.current_frame) g).isSome := by
    intro g hg
    rw [lookupA_cleanup_total] at hg
    have hge : (lookupA (eraseA s.frame_total_packets s.current_frame) g).isSome := by
      by_cases hc : (!(decide (g < s.current_frame + 1 - FRAME_BUFFER_SIZE) &&
          (lookupA (eraseA s.frame_buffers s.current_frame) g).isSome)) = true
      · rwa [if_pos hc] at hg
      · rw [if_neg hc] at hg; simp at hg
    have hne : g ≠ s.current_frame := by
      intro hgc
      rw [hgc, lookupA_eraseA, if_pos rfl] at hge
      simp at hge
    have hts : (lookupA s.frame_total_packets g).isSome := by
      rwa [lookupA_eraseA, if_neg hne] at hge
    have hbs : (lookupA (eraseA s.frame_buffers s.current_frame) g).isSome := by
      rw [lookupA_eraseA, if_neg hne]
      exact h g hts
    refine ⟨?_, hbs⟩
    intro hlt
    rw [if_neg (by simp [hlt, hbs])] at hg
    simp at hg
  refine ⟨?_, ?_, ?_, ?_⟩
  · intro g hg
    rw [cleanup_current_frame]
    rcases hg with hg | hg
    · exact (hbuf g hg).1
    · exact (htot g hg).1
  · intro g hg
    obtain ⟨hlt, hbs⟩ := htot g hg
    rw [lookupA_cleanup_buffers, if_pos (by simp [hlt])]
    exact hbs
  · rw [lookupA_cleanup_buffers]
    have : lookupA (eraseA s.frame_buffers s.current_frame) s.current_frame = none := by
      rw [lookupA_eraseA, if_pos rfl]
    simp [this]
  · rw [lookupA_cleanup_total]
    have : lookupA (eraseA s.frame_total_packets s.current_frame) s.current_frame = none := by
      rw [lookupA_eraseA, if_pos rfl]
    simp [this]

theorem pcfAux_state_of_nil : ∀ (fuel : Nat) (s : RxState),
    (pcfAux fuel s).2.1 = [] → (pcfAux fuel s).1 = s := by
  intro fuel s h
  cases fuel with
  | zero => rfl
  | succ n =>
    cases hb : lookupA s.frame_buffers s.current_frame with
    | none => rw [pcfAux_head_missing _ _ hb]
    | some fp =>
      cases ht : lookupA s.frame_total_packets s.current_frame with
      | none => rw [pcfAux_no_total _ _ _ hb ht]
      | some total =>
        by_cases hcomp : fp.length = total
        · cases hre : reassemble_frame fp total with
          | none => rw [pcfAux_head_err n s fp total hb ht hcomp hre]
          | some fd =>
            rw [pcfAux_head_emit n s fp total fd hb ht hcomp hre] at h
            simp at h
        · rw [pcfAux_head_incomplete _ s fp total hb ht hcomp]

theorem pcfAux_window : ∀ (fuel : Nat) (s : RxState), keys_covered s →
    keys_covered (pcfAux fuel s).1 ∧
    ((pcfAux fuel s).2.1 ≠ [] →
      window_ok (pcfAux fuel s).1 ∧
      lookupA (pcfAux fuel s).1.frame_buffers
        ((pcfAux fuel s).1.current_frame - 1) = none ∧
      lookupA (pcfAux fuel s).1.frame_total_packets
        ((pcfAux fuel s).1.current_frame - 1) = none) := by
  intro fuel
  induction fuel with
  | zero => intro s hkc; exact ⟨hkc, by intro h; exact absurd rfl h⟩
  | succ n ih =>
    intro s hkc
    cases hb : lookupA s.frame_buffers s.current_frame with
    | none => rw [pcfAux_head_missing _ _ hb]; exact ⟨hkc, by intro h; exact absurd rfl h⟩
    | some fp =>
      cases ht : lookupA s.frame_total_packets s.current_frame with
      | none =>
        rw [pcfAux_no_total _ _ _ hb ht]
        exact ⟨hkc, by intro h; exact absurd rfl h⟩
      | some total =>
        by_cases hcomp : fp.length = total
        · cases hre : reassemble_frame fp total with
          | none =>
            rw [pcfAux_head_err n s fp total hb ht hcomp hre]
            exact ⟨hkc, by intro h; exact absurd rfl h⟩
          | some fd =>
            rw [pcfAux_head_emit n s fp total fd hb ht hcomp hre]
            obtain ⟨hwin, hkc', hpb, hpt⟩ := cleanup_window s hkc
            obtain ⟨ihkc, ihrest⟩ := ih (cleanup_processed_frame s) hkc'
            refine ⟨ihkc, fun _ => ?_⟩
            by_cases hnil : (pcfAux n (cleanup_processed_frame s)).2.1 = []
            · have hst := pcfAux_state_of_nil n (cleanup_processed_frame s) hnil
              rw [hst, cleanup_current_frame]
              simpa using ⟨hwin, hpb, hpt⟩
            · exact ihrest hnil
        · rw [pcfAux_head_incomplete _ s fp total hb ht hcomp]
          exact ⟨hkc, by intro h; exact absurd rfl h⟩

theorem store_keys_covered (s : RxState) (data : Bytes) (h : keys_covered s) :
    keys_covered
      { frame_buffers := insertA s.frame_buffers (frameOf data)
          (insertA ((lookupA s.frame_buffers (frameOf data)).getD [])
            (idxOf data) (data.drop HEADER_SIZE)),
        frame_total_packets := insertA s.frame_total_packets (frameOf data) (totalOf data),
        current_frame := s.current_frame } := by
  intro g hg
  simp only [lookupA_insertA] at hg ⊢
  by_cases hfd : frameOf data = g
  · simp [hfd]
  · rw [if_neg hfd] at hg
    rw [if_neg hfd]
    exact h g hg

theorem handle_keys_covered (s : RxState) (data : Bytes) (h : keys_covered s) :
    keys_covered (handle_datagram s data).1 := by
  by_cases hl : data.length < HEADER_SIZE
  · rw [handle_datagram, if_pos hl]; exact h
  · rw [handle_datagram_store s data hl, process_complete_frames]
    exact (pcfAux_window _ _ (store_keys_covered s data h)).1

theorem run_keys_covered : ∀ (ds : List Bytes) (s : RxState), keys_covered s →
    keys_covered (run_datagrams s ds).1 := by
  intro ds
  induction ds with
  | nil => intro s h; exact h
  | cons d ds ih =>
    intro s h
    exact ih _ (handle_keys_covered s d h)

/-- C5 (amended): immediately after any ingest that emitted at least one
frame (i.e. immediately after a cursor advance), no buffered state — packet
map or `total_packets` record — exists for any frame number below
`current_frame - FRAME_BUFFER_SIZE` (`W = 5`), and the just-processed frame
`current_frame - 1` is purged from both maps.  (Buffered frames between
`current_frame - W` and `current_frame - 2` may survive, refuting the
claim's stronger "everything below the cursor is purged" part.) -/
theorem C5_window_after_emit (f0 : Nat) (ds : List Bytes) (d : Bytes)
    (hemit : (handle_datagram (run_datagrams (initState f0) ds).1 d).2.1 ≠ []) :
    window_ok (handle_datagram (run_datagrams (initState f0) ds).1 d).1 ∧
    lookupA (handle_datagram (run_datagrams (initState f0) ds).1 d).1.frame_buffers
      ((handle_datagram (run_datagrams (initState f0) ds).1 d).1.current_frame - 1) = none ∧
    lookupA (handle_datagram (run_datagrams (initState f0) ds).1 d).1.frame_total_packets
      ((handle_datagram (run_datagrams (initState f0) ds).1 d).1.current_frame - 1) = none := by
  have hkc : keys_covered (run_datagrams (initState f0) ds).1 := by
    refine run_keys_covered ds (initState f0) ?_
    intro g hg
    simp [initState, lookupA] at hg
  by_cases hl : d.length < HEADER_SIZE
  · rw [handle_datagram_short _ _ hl] at hemit
    exact absurd rfl hemit
  · rw [handle_datagram_store _ d hl, process_complete_frames] at hemit ⊢
    exact (pcfAux_window _ _ (store_keys_covered _ d hkc)).2 hemit

theorem C5_window_after_emit_witness :
    (handle_datagram (run_datagrams (initState 0) []).1 (mkPacket 0 0 1 [7])).2.1 ≠ [] ∧
    window_ok (handle_datagram (run_datagrams (initState 0) []).1 (mkPacket 0 0 1 [7])).1 :=
  ⟨by decide, (C5_window_after_emit 0 [] (mkPacket 0 0 1 [7]) (by decide)).1⟩

/-- C5 counterexample: frame 0 is delivered and emitted (cursor 1), a late
duplicate packet of frame 0 re-creates a buffer entry for frame 0, then
frame 1 is delivered and emitted.  Immediately after this cursor advance
(the final ingest did emit), the cursor is 2 yet frame 0 — strictly below
the cursor — is still buffered, refuting "every buffered frame number
strictly less than the cursor has been purged". -/
theorem C5_stale_below_cursor_cex :
    (handle_datagram
        (run_datagrams (initState 0) [mkPacket 0 0 1 [9], mkPacket 0 0 1 [9]]).1
        (mkPacket 1 0 1 [8])).2.1 ≠ [] ∧
    (handle_datagram
        (run_datagrams (initState 0) [mkPacket 0 0 1 [9], mkPacket 0 0 1 [9]]).1
        (mkPacket 1 0 1 [8])).1.current_frame = 2 ∧
    (lookupA (handle_datagram
        (run_datagrams (initState 0) [mkPacket 0 0 1 [9], mkPacket 0 0 1 [9]]).1
        (mkPacket 1 0 1 [8])).1.frame_buffers 0).isSome = true := by decide

/-! ## C6: head-of-line blocking -/

theorem length_lt_of_keys_avoid (T i0 : Nat) (hi0 : i0 < T) (bm : PacketMap)
    (hnd : (keysA bm).Nodup) (hk : ∀ k ∈ keysA bm, k < T ∧ k ≠ i0) :
    bm.length < T := by
  have hsub : (keysA bm).toFinset ⊆ (Finset.range T).erase i0 := by
    intro x hx
    simp only [List.mem_toFinset] at hx
    obtain ⟨h1, h2⟩ := hk x hx
    simp [Finset.mem_erase, h2, h1]
  have hcard := Finset.card_le_card hsub
  rw [Finset.card_erase_of_mem (by simpa using hi0), Finset.card_range] at hcard
  have hlen : bm.length = (keysA bm).toFinset.card := by
    rw [List.toFinset_card_of_nodup hnd, length_keysA]
  omega

theorem head_blocked_step (f0 T i0 : Nat) (hi0 : i0 < T) (s : RxState)
    (hs : head_blocked f0 T i0 s) (data : Bytes)
    (hd : ¬ data.length < HEADER_SIZE → frameOf data = f0 →
      totalOf data = T ∧ idxOf data < T ∧ idxOf data ≠ i0) :
    (handle_datagram s data).2.1 = [] ∧ head_blocked f0 T i0 (handle_datagram s data).1 := by
  obtain ⟨hcur, hbufs, htots⟩ := hs
  by_cases hl : data.length < HEADER_SIZE
  · rw [handle_datagram_short _ _ hl]
    exact ⟨rfl, hcur, hbufs, htots⟩
  · rw [handle_datagram_store s data hl]
    set bm0 := (lookupA s.frame_buffers (frameOf data)).getD [] with hbm0
    set s2 : RxState :=
      { frame_buffers := insertA s.frame_buffers (frameOf data)
          (insertA bm0 (idxOf data) (data.drop HEADER_SIZE)),
        frame_total_packets := insertA s.frame_total_packets (frameOf data) (totalOf data),
        current_frame := s.current_frame } with hs2
    have hs2cur : s2.current_frame = f0 := hcur
    by_cases hfr : frameOf data = f0
    · obtain ⟨hdt, hdi, hdni⟩ := hd hl hfr
      have hbm0good : (keysA bm0).Nodup ∧ ∀ k ∈ keysA bm0, k < T ∧ k ≠ i0 := by
        rw [hbm0]
        cases hlb : lookupA s.frame_buffers (frameOf data) with
        | none => simp [keysA]
        | some bm =>
          rw [hfr] at hlb
          simpa using hbufs bm hlb
      have hgood' : (keysA (insertA bm0 (idxOf data) (data.drop HEADER_SIZE))).Nodup ∧
          ∀ k ∈ keysA (insertA bm0 (idxOf data) (data.drop HEADER_SIZE)), k < T ∧ k ≠ i0 := by
        refine ⟨nodup_keysA_insertA _ _ hbm0good.1, ?_⟩
        intro k hk
        rw [keysA_insertA] at hk
        rcases List.mem_cons.mp hk with rfl | hk
        · exact ⟨hdi, hdni⟩
        · exact hbm0good.2 k (mem_keysA_eraseA hk).1
      have hb2 : lookupA s2.frame_buffers f0
          = some (insertA bm0 (idxOf data) (data.drop HEADER_SIZE)) := by
        rw [hs2]
        show lookupA (insertA s.frame_buffers (frameOf data) _) f0 = _
        rw [lookupA_insertA, if_pos hfr]
      have ht2 : lookupA s2.frame_total_packets f0 = some T := by
        rw [hs2]
        show lookupA (insertA s.frame_total_packets (frameOf data) (totalOf data)) f0 = _
        rw [lookupA_insertA, if_pos hfr, hdt]
      have hblocked2 : head_blocked f0 T i0 s2 := by
        refine ⟨hs2cur, ?_, ?_⟩
        · intro bm hbm
          rw [hb2] at hbm
          cases hbm
          exact hgood'
        · intro t ht
          rw [ht2] at ht
          cases ht
          rfl
      have hinc : (insertA bm0 (idxOf data) (data.drop HEADER_SIZE)).length ≠ T :=
        Nat.ne_of_lt (length_lt_of_keys_avoid T i0 hi0 _ hgood'.1 hgood'.2)
      rw [process_complete_frames,
        pcfAux_head_incomplete _ s2 _ T (hs2cur ▸ hb2) (hs2cur ▸ ht2) hinc]
      exact ⟨rfl, hblocked2⟩
    · have hb2 : lookupA s2.frame_buffers f0 = lookupA s.frame_buffers f0 := by
        rw [hs2]
        show lookupA (insertA s.frame_buffers (frameOf data) _) f0 = _
        rw [lookupA_insertA, if_neg hfr]
      have ht2 : lookupA s2.frame_total_packets f0 = lookupA s.frame_total_packets f0 := by
        rw [hs2]
        show lookupA (insertA s.frame_total_packets (frameOf data) (totalOf data)) f0 = _
        rw [lookupA_insertA, if_neg hfr]
      have hblocked2 : head_blocked f0 T i0 s2 := by
        refine ⟨hs2cur, ?_, ?_⟩
        · intro bm hbm
          exact hbufs bm (hb2 ▸ hbm)
        · intro t ht
          exact htots t (ht2 ▸ ht)
      rw [process_complete_frames]
      cases hlb : lookupA s2.frame_buffers s2.current_frame with
      | none =>
        rw [pcfAux_head_missing _ _ hlb]
        exact ⟨rfl, hblocked2⟩
      | some bm =>
        cases hlt : lookupA s2.frame_total_packets s2.current_frame with
        | none =>
          rw [pcfAux_no_total _ _ _ hlb hlt]
          exact ⟨rfl, hblocked2⟩
        | some t =>
          have hbmgood := hblocked2.2.1 bm (hs2cur ▸ hlb)
          have htT : t = T := hblocked2.2.2 t (hs2cur ▸ hlt)
          have hinc : bm.length ≠ t := by
            rw [htT]
            exact Nat.ne_of_lt (length_lt_of_keys_avoid T i0 hi0 _ hbmgood.1 hbmgood.2)
          rw [pcfAux_head_incomplete _ s2 bm t hlb hlt hinc]
          exact ⟨rfl, hblocked2⟩

theorem head_blocked_run (f0 T i0 : Nat) (hi0 : i0 < T) :
    ∀ (ds : List Bytes) (s : RxState), head_blocked f0 T i0 s →
    (∀ d ∈ ds, ¬ d.length < HEADER_SIZE → frameOf d = f0 →
      totalOf d = T ∧ idxOf d < T ∧ idxOf d ≠ i0) →
    (run_datagrams s ds).2 = [] ∧ head_blocked f0 T i0 (run_datagrams s ds).1 := by
  intro ds
  induction ds with
  | nil => intro s hs _; exact ⟨rfl, hs⟩
  | cons d ds ih =>
    intro s hs hds
    obtain ⟨h1, h2⟩ := head_blocked_step f0 T i0 hi0 s hs d (hds d (List.mem_cons_self d ds))
    obtain ⟨ih1, ih2⟩ := ih (handle_datagram s d).1 h2
      (fun d' hd' => hds d' (List.mem_cons_of_mem d hd'))
    simp only [run_datagrams]
    exact ⟨by rw [h1, ih1, List.nil_append], ih2⟩

/-- C6: if some packet index `i0 < T` of the head frame `f0` never arrives —
every ingested datagram is either malformed-short, belongs to a different
frame, or is a well-formed packet of frame `f0` (total `T`) with an index
other than `i0` — then no frame is ever emitted and the cursor never
advances, no matter how many packets of later frames arrive and complete. -/
theorem C6_blocked_head_never_emits (f0 T i0 : Nat) (ds : List Bytes)
    (hi0 : i0 < T)
    (hds : ∀ d ∈ ds, ¬ d.length < HEADER_SIZE → frameOf d = f0 →
      totalOf d = T ∧ idxOf d < T ∧ idxOf d ≠ i0) :
    (run_datagrams (initState f0) ds).2 = [] ∧
    (run_datagrams (initState f0) ds).1.current_frame = f0 := by
  have hinit : head_blocked f0 T i0 (initState f0) := by
    refine ⟨rfl, ?_, ?_⟩
    · intro bm hbm; simp [initState, lookupA] at hbm
    · intro t ht; simp [initState, lookupA] at ht
  obtain ⟨h1, h2⟩ := head_blocked_run f0 T i0 hi0 ds (initState f0) hinit hds
  exact ⟨h1, h2.1⟩

theorem C6_blocked_head_never_emits_witness :
    (1 : Nat) < 2 ∧
    (run_datagrams (initState 0) [mkPacket 0 0 2 [5], mkPacket 3 0 1 [6]]).2 = [] ∧
    (run_datagrams (initState 0)
      [mkPacket 0 0 2 [5], mkPacket 3 0 1 [6]]).1.current_frame = 0 :=
  ⟨by decide, C6_blocked_head_never_emits 0 2 1 [mkPacket 0 0 2 [5], mkPacket 3 0 1 [6]]
    (by decide) (by decide)⟩

/-! ## Round-trip machinery (C1, C9) -/

theorem mem_keysA_insertA {β : Type} (bm : List (Nat × β)) (j k : Nat) (v : β)
    (h : k ∈ keysA bm) : k ∈ keysA (insertA bm j v) := by
  rw [keysA_insertA]
  by_cases hk : k = j
  · simp [hk]
  · refine List.mem_cons_of_mem _ ?_
    rw [keysA_eraseA]
    exact List.mem_filter.mpr ⟨h, by simp [hk]⟩

theorem self_mem_keysA_insertA {β : Type} (bm : List (Nat × β)) (j : Nat) (v : β) :
    j ∈ keysA (insertA bm j v) := by
  rw [keysA_insertA]
  exact List.mem_cons_self _ _

theorem goodPM_nil (T : Nat) (g : Nat → Bytes) : goodPM T g [] :=
  ⟨List.nodup_nil, by intro k hk; simp [keysA] at hk⟩

theorem goodPM_length_le (T : Nat) (g : Nat → Bytes) (bm : PacketMap)
    (h : goodPM T g bm) : bm.length ≤ T := by
  obtain ⟨hnd, hk⟩ := h
  have hsub : (keysA bm).toFinset ⊆ Finset.range T := by
    intro x hx
    simp only [List.mem_toFinset] at hx
    simpa using (hk x hx).1
  have hcard := Finset.card_le_card hsub
  rw [Finset.card_range] at hcard
  have hlen : bm.length = (keysA bm).toFinset.card := by
    rw [List.toFinset_card_of_nodup hnd, length_keysA]
  omega

theorem goodPM_insertA (T : Nat) (g : Nat → Bytes) (bm : PacketMap) (j : Nat)
    (h : goodPM T g bm) (hj : j < T) :
    goodPM T g (insertA bm j (g j)) := by
  refine ⟨nodup_keysA_insertA _ _ h.1, ?_⟩
  intro k hk
  rw [keysA_insertA] at hk
  rcases List.mem_cons.mp hk with rfl | hk
  · exact ⟨hj, by rw [lookupA_insertA, if_pos rfl]⟩
  · obtain ⟨hmem, hne⟩ := mem_keysA_eraseA hk
    obtain ⟨h1, h2⟩ := h.2 k hmem
    exact ⟨h1, by rw [lookupA_insertA, if_neg (Ne.symm hne)]; exact h2⟩

theorem goodPM_complete (T : Nat) (g : Nat → Bytes) (bm : PacketMap)
    (h : goodPM T g bm) (hlen : bm.length = T) :
    ∀ i, i < T → lookupA bm i = some (g i) := by
  obtain ⟨hnd, hk⟩ := h
  have hsub : (keysA bm).toFinset ⊆ Finset.range T := by
    intro x hx
    simp only [List.mem_toFinset] at hx
    simpa using (hk x hx).1
  have hcardeq : (keysA bm).toFinset.card = T := by
    rw [List.toFinset_card_of_nodup hnd, length_keysA, hlen]
  have heq : (keysA bm).toFinset = Finset.range T :=
    Finset.eq_of_subset_of_card_le hsub (by rw [Finset.card_range, hcardeq])
  intro i hi
  have : i ∈ (keysA bm).toFinset := by
    rw [heq]
    exact Finset.mem_range.mpr hi
  exact (hk i (List.mem_toFinset.mp this)).2

theorem reassemble_goodPM (T : Nat) (g : Nat → Bytes) (bm : PacketMap)
    (h : goodPM T g bm) (hlen : bm.length = T) :
    reassemble_frame bm T = some (((List.range T).map g).flatten) := by
  have hcomp := goodPM_complete T g bm h hlen
  have hspec := concatPackets_spec bm g T 0 (fun k hk => by simpa using hcomp k hk)
  rw [reassemble_frame, hspec]
  congr 1
  refine congrArg List.flatten (List.map_congr_left ?_)
  intro x _
  rw [Nat.zero_add]

theorem phase1_step (f T : Nat) (g : Nat → Bytes)
    (hf : f < 4294967296) (hT : T < 4294967296) (hT1 : 1 ≤ T)
    (s : RxState) (hs : Phase1 f T g s) (j : Nat) (hj : j < T) :
    (∃ bm', handle_datagram s (mkPacket f j T (g j))
        = (⟨[(f, bm')], [(f, T)], f⟩, [], false) ∧
      goodPM T g bm' ∧ bm'.length < T ∧ j ∈ keysA bm' ∧
      (∀ k bm, s.frame_buffers = [(f, bm)] → k ∈ keysA bm → k ∈ keysA bm')) ∨
    handle_datagram s (mkPacket f j T (g j))
      = (⟨[], [], f + 1⟩, [(f, ((List.range T).map g).flatten)], false) := by
  obtain ⟨hcur, htots, hbufs⟩ := hs
  have hfr : frameOf (mkPacket f j T (g j)) = f := frameOf_mkPacket f j T (g j) hf
  have hidx : idxOf (mkPacket f j T (g j)) = j :=
    idxOf_mkPacket f j T (g j) (Nat.lt_trans hj hT)
  have htot : totalOf (mkPacket f j T (g j)) = T := totalOf_mkPacket f j T (g j) hT
  have hdrop : (mkPacket f j T (g j)).drop HEADER_SIZE = g j := mkPacket_drop_header f j T (g j)
  obtain ⟨bm, hbmspec, hgood, hlt⟩ :
      ∃ bm, ((s.frame_buffers = [] ∧ bm = []) ∨ s.frame_buffers = [(f, bm)]) ∧
        goodPM T g bm ∧ bm.length < T := by
    rcases hbufs with h | ⟨bm, h1, h2, h3⟩
    · exact ⟨[], Or.inl ⟨h, rfl⟩, goodPM_nil T g, by simpa using hT1⟩
    · exact ⟨bm, Or.inr h1, h2, h3⟩
  have hgetD : (lookupA s.frame_buffers f).getD [] = bm := by
    rcases hbmspec with ⟨h1, rfl⟩ | h1 <;> simp [h1, lookupA]
  have hbufs2 : insertA s.frame_buffers f (insertA bm j (g j))
      = [(f, insertA bm j (g j))] := by
    rcases hbmspec with ⟨h1, _⟩ | h1 <;> simp [h1, insertA, eraseA, List.filter]
  have htots2 : insertA s.frame_total_packets f T = [(f, T)] := by
    rcases htots with h | h <;> simp [h, insertA, eraseA, List.filter]
  have hstep : handle_datagram s (mkPacket f j T (g j))
      = process_complete_frames ⟨[(f, insertA bm j (g j))], [(f, T)], f⟩ := by
    rw [handle_datagram_store s _ (mkPacket_length_ge f j T (g j))]
    rw [hfr, hidx, htot, hdrop, hgetD, hcur, hbufs2, htots2]
  set bm' := insertA bm j (g j) with hbm'
  have hgood' : goodPM T g bm' := goodPM_insertA T g bm j hgood hj
  have hb2 : lookupA (⟨[(f, bm')], [(f, T)], f⟩ : RxState).frame_buffers
      (⟨[(f, bm')], [(f, T)], f⟩ : RxState).current_frame = some bm' := by
    simp [lookupA]
  have ht2 : lookupA (⟨[(f, bm')], [(f, T)], f⟩ : RxState).frame_total_packets
      (⟨[(f, bm')], [(f, T)], f⟩ : RxState).current_frame = some T := by
    simp [lookupA]
  by_cases hlen' : bm'.length = T
  · right
    have hre : reassemble_frame bm' T = some (((List.range T).map g).flatten) :=
      reassemble_goodPM T g bm' hgood' hlen'
    have hclean : cleanup_processed_frame ⟨[(f, bm')], [(f, T)], f⟩ = ⟨[], [], f + 1⟩ := by
      simp [cleanup_processed_frame, eraseA, List.filter]
    rw [hstep, process_complete_frames]
    have hfuel : (⟨[(f, bm')], [(f, T)], f⟩ : RxState).frame_buffers.length = 0 + 1 := rfl
    rw [hfuel, pcfAux_head_emit 0 _ bm' T _ hb2 ht2 hlen' hre, hclean]
    rfl
  · left
    refine ⟨bm', ?_, hgood', ?_, self_mem_keysA_insertA bm j (g j), ?_⟩
    · rw [hstep, process_complete_frames]
      exact pcfAux_head_incomplete _ _ bm' T hb2 ht2 hlen'
    · exact Nat.lt_of_le_of_ne (goodPM_length_le T g bm' hgood') hlen'
    · intro k bm0 hfb0 hk0
      rcases hbmspec with ⟨h1, _⟩ | h1
      · rw [h1] at hfb0
        exact absurd hfb0 (by simp)
      · rw [h1] at hfb0
        have : bm0 = bm := by
          have := List.cons.injEq .. ▸ hfb0
          simp at hfb0
          exact hfb0.symm
        rw [this] at hk0
        exact mem_keysA_insertA bm j k (g j) hk0

theorem phase2_step (f : Nat) (s : RxState) (hs : Phase2 f s) (data : Bytes)
    (hfr : ¬ data.length < HEADER_SIZE → frameOf data = f) :
    (handle_datagram s data).2.1 = [] ∧ Phase2 f (handle_datagram s data).1 := by
  obtain ⟨hcur, hnb⟩ := hs
  by_cases hl : data.length < HEADER_SIZE
  · rw [handle_datagram_short _ _ hl]
    exact ⟨rfl, hcur, hnb⟩
  · have hfd : frameOf data = f := hfr hl
    rw [handle_datagram_store s data hl]
    set s2 : RxState :=
      { frame_buffers := insertA s.frame_buffers (frameOf data)
          (insertA ((lookupA s.frame_buffers (frameOf data)).getD [])
            (idxOf data) (data.drop HEADER_SIZE)),
        frame_total_packets := insertA s.frame_total_packets (frameOf data) (totalOf data),
        current_frame := s.current_frame } with hs2
    have hnb2 : lookupA s2.frame_buffers (f + 1) = none := by
      rw [hs2]
      show lookupA (insertA s.frame_buffers (frameOf data) _) (f + 1) = none
      rw [lookupA_insertA, if_neg (by rw [hfd]; omega)]
      exact hnb
    have hcur2 : s2.current_frame = f + 1 := hcur
    rw [process_complete_frames, pcfAux_head_missing _ _ (by rw [hcur2]; exact hnb2)]
    exact ⟨rfl, hcur2, hnb2⟩

theorem phase2_run (f : Nat) : ∀ (ds : List Bytes) (s : RxState), Phase2 f s →
    (∀ d ∈ ds, ¬ d.length < HEADER_SIZE → frameOf d = f) →
    (run_datagrams s ds).2 = [] := by
  intro ds
  induction ds with
  | nil => intro s _ _; rfl
  | cons d ds ih =>
    intro s hs hds
    obtain ⟨h1, h2⟩ := phase2_step f s hs d (hds d (List.mem_cons_self d ds))
    simp only [run_datagrams]
    rw [h1, List.nil_append]
    exact ih _ h2 (fun d' hd' => hds d' (List.mem_cons_of_mem d hd'))

theorem phase1_run (f T : Nat) (g : Nat → Bytes)
    (hf : f < 4294967296) (hT : T < 4294967296) (hT1 : 1 ≤ T) :
    ∀ (ds : List Bytes),
    (∀ d ∈ ds, ∃ j, j < T ∧ d = mkPacket f j T (g j)) →
    ∀ s, Phase1 f T g s →
    (∀ i, i < T →
      (∃ bm, s.frame_buffers = [(f, bm)] ∧ i ∈ keysA bm) ∨ mkPacket f i T (g i) ∈ ds) →
    (run_datagrams s ds).2 = [(f, ((List.range T).map g).flatten)] := by
  intro ds
  induction ds with
  | nil =>
    intro _ s hs hcov
    exfalso
    obtain ⟨hcur, htots, hbufs⟩ := hs
    have h0 := hcov 0 hT1
    rcases h0 with ⟨bm, hfb, _⟩ | habs
    · rcases hbufs with h | ⟨bm0, hfb0, hgood0, hlt0⟩
      · rw [h] at hfb
        exact absurd hfb (by simp)
      · have hbmeq : bm = bm0 := by
          rw [hfb0] at hfb
          simp at hfb
          exact hfb.symm
        have hall : ∀ i, i < T → i ∈ keysA bm0 := by
          intro i hi
          rcases hcov i hi with ⟨bmi, hfbi, hmemi⟩ | habs
          · have : bmi = bm0 := by
              rw [hfb0] at hfbi
              simp at hfbi
              exact hfbi.symm
            exact this ▸ hmemi
          · simp at habs
        have hsub : Finset.range T ⊆ (keysA bm0).toFinset := by
          intro x hx
          exact List.mem_toFinset.mpr (hall x (Finset.mem_range.mp hx))
        have hcard := Finset.card_le_card hsub
        rw [Finset.card_range, List.toFinset_card_of_nodup hgood0.1, length_keysA] at hcard
        omega
    · simp at habs
  | cons d ds ih =>
    intro hds s hs hcov
    obtain ⟨j, hj, rfl⟩ := hds d (List.mem_cons_self d ds)
    rcases phase1_step f T g hf hT hT1 s hs j hj with
      ⟨bm', heq, hgood', hlt', hjmem, hgrow⟩ | heq
    · simp only [run_datagrams]
      rw [heq, List.nil_append]
      refine ih (fun d' hd' => hds d' (List.mem_cons_of_mem _ hd')) _
        ⟨rfl, Or.inr rfl, Or.inr ⟨bm', rfl, hgood', hlt'⟩⟩ ?_
      intro i hi
      rcases hcov i hi with ⟨bm, hfb, hmem⟩ | hpk
      · exact Or.inl ⟨bm', rfl, hgrow i bm hfb hmem⟩
      · rcases List.mem_cons.mp hpk with hpe | htail
        · left
          refine ⟨bm', rfl, ?_⟩
          have hieq : i = j := by
            have h1 := idxOf_mkPacket f i T (g i) (Nat.lt_trans hi hT)
            have h2 := idxOf_mkPacket f j T (g j) (Nat.lt_trans hj hT)
            rw [← h1, hpe, h2]
          exact hieq ▸ hjmem
        · exact Or.inr htail
    · simp only [run_datagrams]
      rw [heq]
      have hrest : (run_datagrams (⟨[], [], f + 1⟩ : RxState) ds).2 = [] := by
        refine phase2_run f ds _ ⟨rfl, rfl⟩ ?_
        intro d' hd' hlen'
        obtain ⟨j', hj', rfl⟩ := hds d' (List.mem_cons_of_mem _ hd')
        exact frameOf_mkPacket f j' T (g j') hf
      rw [hrest]
      simp

theorem total_packets_facts (L m : Nat) (hm : 12 < m) (hL : 1 ≤ L) :
    1 ≤ (L + m - HEADER_SIZE - 1) / (m - HEADER_SIZE) ∧
    (L + m - HEADER_SIZE - 1) / (m - HEADER_SIZE) ≤ L ∧
    L ≤ ((L + m - HEADER_SIZE - 1) / (m - HEADER_SIZE)) * (m - HEADER_SIZE) := by
  simp only [HEADER_SIZE]
  have hc1 : 0 < m - 12 := by omega
  have harg : L + m - 12 - 1 = (L - 1) + (m - 12) := by omega
  rw [harg, Nat.add_div_right _ hc1]
  have h1 := Nat.div_le_self (L - 1) (m - 12)
  have h2 := (Nat.div_lt_iff_lt_mul hc1).mp (Nat.lt_succ_self ((L - 1) / (m - 12)))
  refine ⟨Nat.le_add_left 1 _, ?_, ?_⟩
  · exact le_trans (Nat.succ_le_succ h1) (le_of_eq (by omega))
  · exact le_trans (le_of_eq (by omega : L = L - 1 + 1)) h2

theorem mem_send_video_packets (payload : Bytes) (f m : Nat) (d : Bytes) :
    d ∈ send_video_packets payload f m ↔
    ∃ j, j < (payload.length + m - HEADER_SIZE - 1) / (m - HEADER_SIZE) ∧
      d = mkPacket f j ((payload.length + m - HEADER_SIZE - 1) / (m - HEADER_SIZE))
        (payload_chunk payload (m - HEADER_SIZE) j) := by
  simp only [send_video_packets, List.mem_map, List.mem_range]
  constructor
  · rintro ⟨j, hj, rfl⟩
    exact ⟨j, hj, rfl⟩
  · rintro ⟨j, hj, rfl⟩
    exact ⟨j, hj, rfl⟩

/-- C1 (amended to payload length at least 1): for any nonempty payload, any
`max_packet_size` larger than the 12-byte header and any 32-bit frame
number, packetizing with `send_video`'s loop and ingesting all resulting
packets exactly once, in order, into a fresh reassembler whose cursor is
that frame number emits exactly one frame — byte-identical to the payload
and labelled with that frame number.  (A zero-length payload produces zero
packets and nothing is emitted, hence the `1 ≤ len` amendment.) -/
theorem C1_round_trip (payload : Bytes) (frame_number max_packet_size : Nat)
    (hm : 12 < max_packet_size) (hL : 1 ≤ payload.length)
    (hLb : payload.length < 4294967296) (hf : frame_number < 4294967296) :
    (run_datagrams (initState frame_number)
        (send_video_packets payload frame_number max_packet_size)).2
      = [(frame_number, payload)] := by
  obtain ⟨hT1, hTle, hTc⟩ := total_packets_facts payload.length max_packet_size hm hL
  have hT32 : (payload.length + max_packet_size - HEADER_SIZE - 1) /
      (max_packet_size - HEADER_SIZE) < 4294967296 := Nat.lt_of_le_of_lt hTle hLb
  have hflat : ((List.range ((payload.length + max_packet_size - HEADER_SIZE - 1) /
        (max_packet_size - HEADER_SIZE))).map
          (payload_chunk payload (max_packet_size - HEADER_SIZE))).flatten = payload :=
    join_chunks (max_packet_size - HEADER_SIZE) _ payload hTc
  have hrun := phase1_run frame_number
    ((payload.length + max_packet_size - HEADER_SIZE - 1) / (max_packet_size - HEADER_SIZE))
    (payload_chunk payload (max_packet_size - HEADER_SIZE)) hf hT32 hT1
    (send_video_packets payload frame_number max_packet_size)
    (fun d hd => (mem_send_video_packets payload frame_number max_packet_size d).mp hd)
    (initState frame_number) ⟨rfl, Or.inl rfl, Or.inl rfl⟩
    (fun i hi => Or.inr ((mem_send_video_packets payload frame_number max_packet_size _).mpr
      ⟨i, hi, rfl⟩))
  rw [hrun, hflat]

theorem C1_round_trip_witness :
    1 ≤ ([1, 2, 3] : Bytes).length ∧
    (run_datagrams (initState 0) (send_video_packets [1, 2, 3] 0 13)).2 = [(0, [1, 2, 3])] :=
  ⟨by decide, C1_round_trip [1, 2, 3] 0 13 (by decide) (by decide) (by decide) (by decide)⟩

/-- C1 counterexample: for a zero-length payload (`L = 0`, allowed by the
claim's `L ≥ 0`) the packetizer emits zero packets — `total_packets`
computes to 0, not 1 — so reassembly emits nothing, not "exactly one frame
payload". -/
theorem C1_round_trip_cex :
    send_video_packets ([] : Bytes) 0 13 = [] ∧
    (run_datagrams (initState 0) (send_video_packets ([] : Bytes) 0 13)).2 = [] := by decide

/-- C9: delivering any multiset of datagrams with the same underlying set as
one frame's complete packet list — any permutation, with any packets
re-delivered arbitrarily often — produces exactly the same emission
sequence as delivering the packets once in index order (in particular, the
same single byte-identical reassembled payload). -/
theorem C9_permutation_duplicates (payload : Bytes) (frame_number max_packet_size : Nat)
    (ds : List Bytes)
    (hm : 12 < max_packet_size) (hL : 1 ≤ payload.length)
    (hLb : payload.length < 4294967296) (hf : frame_number < 4294967296)
    (hsub : ds ⊆ send_video_packets payload frame_number max_packet_size)
    (hsup : send_video_packets payload frame_number max_packet_size ⊆ ds) :
    (run_datagrams (initState frame_number) ds).2
      = (run_datagrams (initState frame_number)
          (send_video_packets payload frame_number max_packet_size)).2 := by
  obtain ⟨hT1, hTle, hTc⟩ := total_packets_facts payload.length max_packet_size hm hL
  have hT32 : (payload.length + max_packet_size - HEADER_SIZE - 1) /
      (max_packet_size - HEADER_SIZE) < 4294967296 := Nat.lt_of_le_of_lt hTle hLb
  have h1 := phase1_run frame_number
    ((payload.length + max_packet_size - HEADER_SIZE - 1) / (max_packet_size - HEADER_SIZE))
    (payload_chunk payload (max_packet_size - HEADER_SIZE)) hf hT32 hT1
    ds
    (fun d hd => (mem_send_video_packets payload frame_number max_packet_size d).mp (hsub hd))
    (initState frame_number) ⟨rfl, Or.inl rfl, Or.inl rfl⟩
    (fun i hi => Or.inr (hsup ((mem_send_video_packets payload frame_number max_packet_size _).mpr
      ⟨i, hi, rfl⟩)))
  have h2 := phase1_run frame_number
    ((payload.length + max_packet_size - HEADER_SIZE - 1) / (max_packet_size - HEADER_SIZE))
    (payload_chunk payload (max_packet_size - HEADER_SIZE)) hf hT32 hT1
    (send_video_packets payload frame_number max_packet_size)
    (fun d hd => (mem_send_video_packets payload frame_number max_packet_size d).mp hd)
    (initState frame_number) ⟨rfl, Or.inl rfl, Or.inl rfl⟩
    (fun i hi => Or.inr ((mem_send_video_packets payload frame_number max_packet_size _).mpr
      ⟨i, hi, rfl⟩))
  rw [h1, h2]

theorem C9_permutation_duplicates_witness :
    ([mkPacket 0 2 3 [3], mkPacket 0 0 3 [1], mkPacket 0 1 3 [2], mkPacket 0 0 3 [1]]
        ⊆ send_video_packets [1, 2, 3] 0 13) ∧
    (run_datagrams (initState 0)
        [mkPacket 0 2 3 [3], mkPacket 0 0 3 [1], mkPacket 0 1 3 [2], mkPacket 0 0 3 [1]]).2
      = (run_datagrams (initState 0) (send_video_packets [1, 2, 3] 0 13)).2 :=
  ⟨by decide, C9_permutation_duplicates [1, 2, 3] 0 13
    [mkPacket 0 2 3 [3], mkPacket 0 0 3 [1], mkPacket 0 1 3 [2], mkPacket 0 0 3 [1]]
    (by decide) (by decide) (by decide) (by decide) (by decide) (by decide)⟩

/-- C4 (amended): for `max_packet_size > header_size` the packetizer emits
exactly `(len + max - header - 1) // (max - header)` packets — the ceiling
of `len / (max - header)`, characterized by the two inequalities below —
in `packet_index` order, packet `j` being the header
`(frame_number, j, total_packets)` followed by the `j`-th contiguous chunk,
and the chunks concatenate back to the payload; `total_packets ≥ 1` holds
for nonempty payloads, but a zero-length payload yields zero packets, not
one. -/
theorem C4_packetizer_shape (payload : Bytes) (frame_number max_packet_size : Nat)
    (hm : 12 < max_packet_size) :
    (send_video_packets payload frame_number max_packet_size).length
      = (payload.length + max_packet_size - HEADER_SIZE - 1) /
          (max_packet_size - HEADER_SIZE) ∧
    payload.length ≤ ((payload.length + max_packet_size - HEADER_SIZE - 1) /
          (max_packet_size - HEADER_SIZE)) * (max_packet_size - HEADER_SIZE) ∧
    ((payload.length + max_packet_size - HEADER_SIZE - 1) / (max_packet_size - HEADER_SIZE))
        * (max_packet_size - HEADER_SIZE)
      < payload.length + (max_packet_size - HEADER_SIZE) ∧
    (∀ j, j < (payload.length + max_packet_size - HEADER_SIZE - 1) /
        (max_packet_size - HEADER_SIZE) →
      (send_video_packets payload frame_number max_packet_size)[j]?
        = some (mkPacket frame_number j
            ((payload.length + max_packet_size - HEADER_SIZE - 1) /
              (max_packet_size - HEADER_SIZE))
            (payload_chunk payload (max_packet_size - HEADER_SIZE) j))) ∧
    ((send_video_packets payload frame_number max_packet_size).map
        (fun q => q.drop HEADER_SIZE)).flatten = payload ∧
    (1 ≤ payload.length →
      1 ≤ (payload.length + max_packet_size - HEADER_SIZE - 1) /
            (max_packet_size - HEADER_SIZE)) := by
  have hlow : payload.length ≤ ((payload.length + max_packet_size - HEADER_SIZE - 1) /
      (max_packet_size - HEADER_SIZE)) * (max_packet_size - HEADER_SIZE) := by
    by_cases hL : 1 ≤ payload.length
    · exact (total_packets_facts payload.length max_packet_size hm hL).2.2
    · have h0 : payload.length = 0 := by omega
      rw [h0]
      exact Nat.zero_le _
  refine ⟨by simp [send_video_packets], hlow, ?_, ?_, ?_, ?_⟩
  · refine Nat.lt_of_le_of_lt (Nat.div_mul_le_self _ _) ?_
    have h12 : HEADER_SIZE = 12 := rfl
    omega
  · intro j hj
    simp only [send_video_packets, List.getElem?_map, List.getElem?_range hj]
    rfl
  · have hmapeq : (send_video_packets payload frame_number max_packet_size).map
        (fun q => q.drop HEADER_SIZE)
        = (List.range ((payload.length + max_packet_size - HEADER_SIZE - 1) /
            (max_packet_size - HEADER_SIZE))).map
              (payload_chunk payload (max_packet_size - HEADER_SIZE)) := by
      rw [send_video_packets, List.map_map]
      refine List.map_congr_left ?_
      intro j _
      simp only [Function.comp]
      exact mkPacket_drop_header _ _ _ _
    rw [hmapeq]
    exact join_chunks (max_packet_size - HEADER_SIZE) _ payload hlow
  · intro hL
    exact (total_packets_facts payload.length max_packet_size hm hL).1

theorem C4_packetizer_shape_witness :
    12 < 1400 ∧
    (send_video_packets (List.range 3000) 0 1400).length
      = ((List.range 3000).length + 1400 - HEADER_SIZE - 1) / (1400 - HEADER_SIZE) :=
  ⟨by decide, (C4_packetizer_shape (List.range 3000) 0 1400 (by decide)).1⟩

/-- C4 counterexample: the claim asserts `total_packets ≥ 1` always holds,
"so a zero-length payload still yields at least one packet"; in fact
`send_video`'s formula gives `total_packets = 0` for an empty payload and
zero packets are emitted. -/
theorem C4_packetizer_cex :
    send_video_packets ([] : Bytes) 0 13 = [] ∧
    ¬ 1 ≤ (send_video_packets ([] : Bytes) 0 13).length := by decide
